import Mathlib

/-!
Verification of the PyBench CPU benchmark engine (src/PyBench.py).

The Python source is shallowly embedded below:
* `exp_inverse_sum` models the pure work unit (line 63-65); Python's
  `math.exp` on floats is modelled by an abstract function `mexp : Int → ℚ`
  (every IEEE double is a rational), so every theorem about it holds for the
  actual library exponential in particular.
* `run_single_core` / `exp_worker` model the two bounded benchmark loops
  (lines 94-104 and 77-89); wall-clock reads and cancellation-flag reads are
  oracles indexed by check number, and the loops carry explicit fuel since
  the real termination argument is the wall clock.
* `run_multi_core` models the fan-in loop of lines 106-125 over the list of
  future completions in completion order.
* `benchmark_task`, `finish_status` and the `Gui*` definitions model the
  controller thread body (lines 291-305) and `_finish_benchmark`
  (lines 320-327) together with the button state machine of the GUI.
-/

/-- BATCH_SIZE constant of PyBench.py line 49: terms summed per work unit. -/
def BATCH_SIZE : Nat := 100000

/-- DURATION_SEC constant of PyBench.py line 48, as an exact rational. -/
def DURATION_SEC : ℚ := 10

/-- Python's `range(start, stop)` over the integers: the list
`[start, start+1, ..., stop-1]`, empty when `stop ≤ start`. -/
def pyRange (start stop : Int) : List Int :=
  (List.range (stop - start).toNat).map (fun k : Nat => start + (k : Int))

/-- Embedding of `exp_inverse_sum(start, end)` (PyBench.py lines 63-65):
`sum(math.exp(-i) for i in range(start, end))`.  The float library function
`math.exp` is the abstract parameter `mexp`; the generator sum is the list
sum over the Python range.  Total: no failure outcome. -/
def exp_inverse_sum (mexp : Int → ℚ) (start stop : Int) : ℚ :=
  ((pyRange start stop).map (fun i => mexp (-i))).sum

theorem pyRange_eq_nil_of_le (start stop : Int) (h : stop ≤ start) :
    pyRange start stop = [] := by
  unfold pyRange
  have hz : (stop - start).toNat = 0 := Int.toNat_of_nonpos (by omega)
  rw [hz]
  rfl

theorem list_range_map_sum (f : Int → ℚ) (a : Int) (n : Nat) :
    ((List.range n).map (fun k : Nat => f (a + (k : Int)))).sum
      = ∑ i ∈ Finset.Ico a (a + (n : Int)), f i := by
  induction n with
  | zero => simp
  | succ m ih =>
    rw [List.range_succ, List.map_append, List.sum_append]
    have hcast : a + ((m + 1 : Nat) : Int) = (a + (m : Int)) + 1 := by
      push_cast; ring
    have hins : Finset.Ico a (a + (m : Int) + 1)
        = insert (a + (m : Int)) (Finset.Ico a (a + (m : Int))) := by
      ext x
      simp only [Finset.mem_Ico, Finset.mem_insert]
      omega
    rw [hcast, hins, Finset.sum_insert (by simp), ih]
    simp only [List.map_cons, List.map_nil, List.sum_cons, List.sum_nil]
    ring

/-- C1. `exp_inverse_sum(start, end)` returns exactly the sum of
`mexp(-i)` over all integers `i` with `start ≤ i < end`, for every summand
function `mexp` (so in particular for the library exponential), as a pure
total function of its arguments. -/
theorem exp_inverse_sum_spec (mexp : Int → ℚ) (start stop : Int) :
    exp_inverse_sum mexp start stop = ∑ i ∈ Finset.Ico start stop, mexp (-i) := by
  unfold exp_inverse_sum pyRange
  rcases le_or_lt stop start with h | h
  · have hz : (stop - start).toNat = 0 := Int.toNat_of_nonpos (by omega)
    rw [hz, Finset.Ico_eq_empty (by omega)]
    rfl
  · have hs : start + ((stop - start).toNat : Int) = stop := by
      have := Int.toNat_of_nonneg (a := stop - start) (by omega)
      omega
    rw [List.map_map]
    have := list_range_map_sum (fun i => mexp (-i)) start (stop - start).toNat
    rw [hs] at this
    exact this

/-- C9. On an empty range (`end ≤ start`) `exp_inverse_sum` returns 0
rather than failing: the Python range is empty and the generator sum of an
empty range is the empty sum. -/
theorem exp_inverse_sum_empty (mexp : Int → ℚ) (start stop : Int)
    (h : stop ≤ start) : exp_inverse_sum mexp start stop = 0 := by
  unfold exp_inverse_sum
  rw [pyRange_eq_nil_of_le start stop h]
  rfl

/-- Witness for C9 at the concrete empty range `[5, 3)`. -/
theorem exp_inverse_sum_empty_witness :
    exp_inverse_sum (fun i => (i : ℚ)) 5 3 = 0 :=
  exp_inverse_sum_empty (fun i => (i : ℚ)) 5 3 (by norm_num)

/-- Outcome of one worker future as seen by `f.result()`: either an
iteration count, or a raised exception from a failed computation. -/
inductive FutureResult
  | ok (iterations : Nat)
  | failed
deriving DecidableEq

/-- One step of the `as_completed` fan-in loop of `run_multi_core`
(PyBench.py lines 116-121), in completion order: the value read from
`stop_event.is_set()` at this step, whether `stop_evt_mp` had been set
externally (by `stop_benchmark`, line 275) before this step's check, and
this future's result. -/
structure Completion where
  stop_event_read : Bool
  mp_event_read : Bool
  result : FutureResult
deriving DecidableEq

/-- Embedding of the loop body of `run_multi_core` (lines 114-125):
`mpSet` accumulates whether `stop_evt_mp` is set (it is monotone: once set
it stays set), `total` is the running sum.  At each completed future the
loop relays `stop_event` into `stop_evt_mp`, breaks (returning `total`)
when `stop_evt_mp` is set, and otherwise adds `f.result()` — which raises
(modelled `Except.error`) when the worker failed. -/
def run_multi_core_loop : Bool → Nat → List Completion → Except Unit Nat
  | _, total, [] => Except.ok total
  | mpSet, total, c :: rest =>
    let mpSet1 := mpSet || c.stop_event_read || c.mp_event_read
    if mpSet1 then Except.ok total
    else
      match c.result with
      | FutureResult.ok n => run_multi_core_loop mpSet1 (total + n) rest
      | FutureResult.failed => Except.error ()

/-- Embedding of `run_multi_core` (lines 106-125) as a function of the
future completions in completion order; both stop events start unset
(the GUI creates a fresh `mp.Event` per run, line 286, and clears the
threading event, line 285). -/
def run_multi_core (cs : List Completion) : Except Unit Nat :=
  run_multi_core_loop false 0 cs

/-- Completion of a worker that returned `n` iterations with neither stop
event set at its fan-in step. -/
def okCompletion (n : Nat) : Completion :=
  ⟨false, false, FutureResult.ok n⟩

theorem run_multi_core_loop_ok (counts : List Nat) (total : Nat) :
    run_multi_core_loop false total (counts.map okCompletion)
      = Except.ok (total + counts.sum) := by
  induction counts generalizing total with
  | nil => simp [run_multi_core_loop]
  | cons n rest ih =>
    simp only [List.map_cons, run_multi_core_loop, okCompletion]
    simp only [Bool.or_self, if_neg (by simp : ¬(false = true))]
    rw [ih (total + n)]
    simp only [List.sum_cons]
    congr 1
    omega

/-- C2. In a multi-mode run with no cancellation (every `stop_event` read
is false and `stop_evt_mp` is never set) in which every worker reports a
count, `run_multi_core` waits for all completions and returns the sum of
the reported iteration counts. -/
theorem run_multi_core_sums_all_workers (counts : List Nat) :
    run_multi_core (counts.map okCompletion) = Except.ok counts.sum := by
  unfold run_multi_core
  rw [run_multi_core_loop_ok counts 0]
  simp

/-- Counterexample to C6: with workers reporting 5, a failure, and 3 (no
cancellation), `run_multi_core` does not return the remaining workers' sum
8 with the missing result treated as zero — the failed `f.result()` call
raises and the exception propagates out of `run_multi_core`. -/
theorem run_multi_core_failure_counterexample :
    run_multi_core [okCompletion 5, ⟨false, false, FutureResult.failed⟩,
        okCompletion 3] = Except.error () ∧
      run_multi_core [okCompletion 5, ⟨false, false, FutureResult.failed⟩,
        okCompletion 3] ≠ Except.ok 8 := by
  constructor
  · rfl
  · intro h
    exact Except.noConfusion h

theorem run_multi_core_loop_failed (counts : List Nat) (total : Nat)
    (rest : List Completion) :
    run_multi_core_loop false total (counts.map okCompletion
        ++ ⟨false, false, FutureResult.failed⟩ :: rest)
      = Except.error () := by
  induction counts generalizing total with
  | nil => rfl
  | cons n tail ih =>
    simpa [run_multi_core_loop, okCompletion] using ih (total + n)

/-- C6 as amended: in a multi-mode run with no cancellation, the first
failed worker result makes `run_multi_core` raise: the counts of workers
that completed before it are discarded and no total is returned (the
`finally` block shuts the pool down, so control returns by exception
rather than by hanging). -/
theorem run_multi_core_failure_propagates (counts : List Nat)
    (rest : List Completion) :
    run_multi_core (counts.map okCompletion
        ++ ⟨false, false, FutureResult.failed⟩ :: rest)
      = Except.error () :=
  run_multi_core_loop_failed counts 0 rest

/-- Partition offset of worker `i`: embedding of `start_val = offset *
10_000_000 + 1` (PyBench.py line 79), where `run_multi_core` submits the
indices `i in range(cores)` (line 113). -/
def worker_offset (i : Nat) : Nat := i * 10000000 + 1

/-- Start of the `k`-th work-unit range computed by pool worker `i`:
`start_val` begins at `offset * 10_000_000 + 1` (line 79) and advances by
`BATCH_SIZE` per iteration (line 86), and each iteration computes
`exp_inverse_sum(start_val, start_val + BATCH_SIZE)` (line 84), so the
`k`-th range is `[worker_batch_start i k, worker_batch_start i k +
BATCH_SIZE)`. -/
def worker_batch_start (i k : Nat) : Nat := worker_offset i + k * BATCH_SIZE

/-- Counterexample to C7's range-disjointness conclusion: the distinct
workers 0 and 1 compute the identical work-unit range.  Worker 0's batch
of index 100 starts exactly where worker 1's first batch starts, because
`100 * BATCH_SIZE` equals the `10_000_000` stride and nothing bounds
`start_val` within a worker's stripe; a worker passes 100 iterations in a
small fraction of the 10-second run. -/
theorem worker_range_overlap_counterexample :
    worker_batch_start 0 100 = worker_batch_start 1 0 ∧ (0 : Nat) ≠ 1 := by
  constructor
  · rfl
  · decide

/-- C7 as amended.  The `n` starting offsets are pairwise distinct: the
offset list over `range(n)` has no duplicate and distinct indices give
distinct offsets.  But disjointness holds only for the starting offsets,
not for all ranges computed during a run: every worker's batch of index
100 coincides with the next worker's first batch, since the per-iteration
advance of `BATCH_SIZE` crosses the `10_000_000` stride after exactly 100
batches. -/
theorem worker_offsets_distinct (n : Nat) :
    (((List.range n).map worker_offset).Nodup ∧
      ∀ i j : Nat, i < n → j < n → i ≠ j → worker_offset i ≠ worker_offset j) ∧
      ∀ i : Nat, worker_batch_start i 100 = worker_batch_start (i + 1) 0 := by
  refine ⟨⟨?_, ?_⟩, ?_⟩
  · refine List.Nodup.map ?_ (List.nodup_range n)
    intro i j hij
    unfold worker_offset at hij
    omega
  · intro i j _ _ hne hcontra
    unfold worker_offset at hcontra
    omega
  · intro i
    unfold worker_batch_start worker_offset BATCH_SIZE
    omega

/-- Witness for C7's amended theorem at `n = 3`, indices 0 and 2, and the
batch collision of workers 0 and 1. -/
theorem worker_offsets_distinct_witness :
    ((List.range 3).map worker_offset).Nodup ∧
      worker_offset 0 ≠ worker_offset 2 ∧
      worker_batch_start 0 100 = worker_batch_start 1 0 :=
  ⟨(worker_offsets_distinct 3).1.1,
    (worker_offsets_distinct 3).1.2 0 2 (by decide) (by decide) (by decide),
    (worker_offsets_distinct 3).2 0⟩

/-- A cancellation flag is monotone: once a read returns set, every later
read returns set (threading/multiprocessing events are never cleared
during a run; `stop_benchmark` only sets them). -/
def MonotoneFlag (stop : Nat → Bool) : Prop :=
  ∀ i j : Nat, i ≤ j → stop i = true → stop j = true

/-- Embedding of the `while` loop of `run_single_core` (PyBench.py lines
98-103).  `deadline k` is the `k`-th read of
`time.perf_counter() - t0 >= DURATION_SEC`, `stop k` the `k`-th read of
`stop_event.is_set()`; the iteration counter doubles as the check index
since both checks run once per iteration, before the work unit.  `fuel`
bounds the recursion (the real bound is the wall clock, which eventually
passes the deadline). -/
def run_single_core_loop (deadline stop : Nat → Bool) : Nat → Nat → Nat
  | 0, iterations => iterations
  | fuel + 1, iterations =>
    if deadline iterations then iterations
    else if stop iterations then iterations
    else run_single_core_loop deadline stop fuel (iterations + 1)

/-- Embedding of `run_single_core` (lines 94-104): the loop starts with a
zero iteration count and returns the count when the deadline or the stop
flag fires.  The `exp_inverse_sum` call per iteration is pure and does
not affect control flow. -/
def run_single_core (deadline stop : Nat → Bool) (fuel : Nat) : Nat :=
  run_single_core_loop deadline stop fuel 0

/-- Embedding of the outer `while` loop of `exp_worker` (lines 81-88).
Block `j` is the `j`-th 1-millisecond inner timing block: `deadline j` is
the outer deadline read before block `j`, `blockLen j` the number of
work-unit iterations the inner loop completes during block `j` (driven by
the wall clock, so a parameter), and `stop j` the read of
`_STOP_EVT.is_set()` after block `j` (the pool always installs the event
via `init_worker`, lines 72-75 and 110-112). -/
def exp_worker_loop (deadline stop : Nat → Bool) (blockLen : Nat → Nat) :
    Nat → Nat → Nat → Nat
  | 0, _, iterations => iterations
  | fuel + 1, j, iterations =>
    if deadline j then iterations
    else
      let iterations2 := iterations + blockLen j
      if stop j then iterations2
      else exp_worker_loop deadline stop blockLen fuel (j + 1) iterations2

/-- Embedding of `exp_worker` (lines 77-89), returning the iteration
count; the numeric work (`exp_inverse_sum` on the partition range) is
pure and does not affect control flow. -/
def exp_worker (deadline stop : Nat → Bool) (blockLen : Nat → Nat)
    (fuel : Nat) : Nat :=
  exp_worker_loop deadline stop blockLen fuel 0 0

theorem run_single_core_loop_le (deadline stop : Nat → Bool) (m : Nat)
    (hmono : MonotoneFlag stop) (hm : stop m = true) :
    ∀ fuel iterations, run_single_core_loop deadline stop fuel iterations
      ≤ max iterations m := by
  intro fuel
  induction fuel with
  | zero => intro iterations; exact le_max_left _ _
  | succ f ih =>
    intro iterations
    unfold run_single_core_loop
    by_cases hd : deadline iterations = true
    · simp only [hd, if_true]
      exact le_max_left _ _
    · simp only [hd, if_false]
      by_cases hs : stop iterations = true
      · simp only [hs, if_true]
        exact le_max_left _ _
      · simp only [hs, if_false]
        have hlt : iterations < m := by
          by_contra hge
          exact hs (hmono m iterations (by omega) hm)
        calc run_single_core_loop deadline stop f (iterations + 1)
            ≤ max (iterations + 1) m := ih (iterations + 1)
          _ ≤ max iterations m := by omega

theorem exp_worker_loop_le (deadline stop : Nat → Bool)
    (blockLen : Nat → Nat) (m : Nat) (hm : stop m = true) :
    ∀ fuel j iterations, j ≤ m →
      exp_worker_loop deadline stop blockLen fuel j iterations
        ≤ iterations + ∑ t ∈ Finset.Ico j (m + 1), blockLen t := by
  intro fuel
  induction fuel with
  | zero => intro j iterations _; exact Nat.le_add_right _ _
  | succ f ih =>
    intro j iterations hj
    have hblock : blockLen j ≤ ∑ t ∈ Finset.Ico j (m + 1), blockLen t := by
      have hmem : j ∈ Finset.Ico j (m + 1) := by
        simp only [Finset.mem_Ico]
        omega
      exact Finset.single_le_sum (fun t _ => Nat.zero_le (blockLen t)) hmem
    simp only [exp_worker_loop]
    split_ifs with hd hs
    · exact Nat.le_add_right _ _
    · omega
    · have hjm : j < m := by
        rcases Nat.lt_or_ge j m with h | h
        · exact h
        · have hjeq : j = m := by omega
          rw [hjeq] at hs
          exact absurd hm hs
      have hsplit : ∑ t ∈ Finset.Ico j (m + 1), blockLen t
          = blockLen j + ∑ t ∈ Finset.Ico (j + 1) (m + 1), blockLen t :=
        Finset.sum_eq_sum_Ico_succ_bot (by omega) blockLen
      have hrec := ih (j + 1) (iterations + blockLen j) (by omega)
      omega

/-- C4. Cancellation is observed inside both bounded loops, not only at
loop entry, and forces exit within a bounded amount of further work.  For
`run_single_core`: once the monotone stop flag is set by check `m`, at
most `m` iterations ever complete (the flag is checked every iteration,
before the work unit, so no further iteration runs after the flag is
seen).  For `exp_worker`: the flag is checked after every 1-ms inner
block, so the count never exceeds the iterations of blocks `0..m` — after
the flag is set, at most the current block's iterations are still
performed before the loop exits. -/
theorem cancellation_observed_bounded (deadline stop : Nat → Bool)
    (blockLen : Nat → Nat) (fuel m : Nat) (hmono : MonotoneFlag stop)
    (hm : stop m = true) :
    run_single_core deadline stop fuel ≤ m ∧
      exp_worker deadline stop blockLen fuel
        ≤ ∑ t ∈ Finset.range (m + 1), blockLen t := by
  constructor
  · have h1 := run_single_core_loop_le deadline stop m hmono hm fuel 0
    rw [Nat.zero_max] at h1
    exact h1
  · have h2 := exp_worker_loop_le deadline stop blockLen m hm fuel 0 0
      (Nat.zero_le m)
    rw [Finset.range_eq_Ico]
    simpa using h2

/-- Witness for C4 with the stop flag set from the first check on: the
single-core loop performs no iteration and the worker performs at most
its first block (2 iterations here). -/
theorem cancellation_observed_bounded_witness :
    run_single_core (fun _ => false) (fun _ => true) 9 ≤ 0 ∧
      exp_worker (fun _ => false) (fun _ => true) (fun _ => 2) 9
        ≤ ∑ t ∈ Finset.range 1, (fun _ : Nat => 2) t :=
  cancellation_observed_bounded (fun _ => false) (fun _ => true)
    (fun _ => 2) 9 0 (fun _ _ _ h => h) rfl

/-- Benchmark mode selected by the two start buttons. -/
inductive Mode
  | Single
  | Multi
deriving DecidableEq

/-- Terminal status of a run as set by `_finish_benchmark` (PyBench.py
line 324): the displayed label "Finished!" is the spec's Completed. -/
inductive RunStatus
  | Completed
  | Cancelled
deriving DecidableEq

/-- Numeric content of the four last-result StringVars created at lines
233-236; the GUI stores these numbers as formatted display strings. -/
structure ResultVars where
  last_single_iter : Nat
  last_single_ips : ℚ
  last_multi_iter : Nat
  last_multi_ips : ℚ
deriving DecidableEq

/-- Embedding of `ips = iterations / elapsed if elapsed else 0`
(line 298): Python's truthiness guard on the float `elapsed`. -/
def ips_of (iterations : Nat) (elapsed : ℚ) : ℚ :=
  if elapsed = 0 then 0 else (iterations : ℚ) / elapsed

/-- Result-field update of lines 299-304: the mode picks which result row
is overwritten; the other row is untouched. -/
def update_results (mode : Mode) (iterations : Nat) (ips : ℚ)
    (v : ResultVars) : ResultVars :=
  match mode with
  | Mode.Single => { v with last_single_iter := iterations, last_single_ips := ips }
  | Mode.Multi => { v with last_multi_iter := iterations, last_multi_ips := ips }

/-- Embedding of the body of `task` (lines 291-305): computes the elapsed
time from the two clock readings and updates the result fields only when
the stop event is not set.  Returns the elapsed time and the new result
fields. -/
def benchmark_task (mode : Mode) (iterations : Nat)
    (start_time end_time : ℚ) (stop_set : Bool) (v : ResultVars) :
    ℚ × ResultVars :=
  let elapsed := end_time - start_time
  if stop_set then (elapsed, v)
  else (elapsed, update_results mode iterations (ips_of iterations elapsed) v)

/-- Embedding of the status chosen by `_finish_benchmark` (line 324):
Cancelled exactly when the stop event is set, else Completed. -/
def finish_status (stop_set : Bool) : RunStatus :=
  if stop_set then RunStatus.Cancelled else RunStatus.Completed

/-- C3. When the benchmark task finishes, the controller computes the
elapsed time as the difference of the two clock readings, and the
terminal status is Cancelled exactly when the stop signal was observed
and Completed exactly when it was not: the two statuses are mutually
exclusive and determined solely by the stop flag. -/
theorem terminal_status_spec (mode : Mode) (iterations : Nat)
    (start_time end_time : ℚ) (stop_set : Bool) (v : ResultVars) :
    (benchmark_task mode iterations start_time end_time stop_set v).1
        = end_time - start_time ∧
      (finish_status stop_set = RunStatus.Cancelled ↔ stop_set = true) ∧
      (finish_status stop_set = RunStatus.Completed ↔ stop_set = false) := by
  refine ⟨?_, ?_, ?_⟩
  · unfold benchmark_task
    cases stop_set <;> rfl
  · cases stop_set <;> simp [finish_status]
  · cases stop_set <;> simp [finish_status]

/-- C8. Throughput is a guarded division: it equals iterations divided by
elapsed when elapsed is positive, and 0 when elapsed is 0, so the
zero-elapsed case never divides by zero. -/
theorem throughput_guarded (iterations : Nat) (elapsed : ℚ) :
    (0 < elapsed → ips_of iterations elapsed = (iterations : ℚ) / elapsed) ∧
      (elapsed = 0 → ips_of iterations elapsed = 0) := by
  constructor
  · intro h
    unfold ips_of
    rw [if_neg (ne_of_gt h)]
  · intro h
    unfold ips_of
    rw [if_pos h]

/-- Witness for C8 at elapsed 2 and at elapsed 0. -/
theorem throughput_guarded_witness :
    ips_of 7 2 = (7 : ℚ) / 2 ∧ ips_of 7 0 = 0 :=
  ⟨(throughput_guarded 7 2).1 (by norm_num), (throughput_guarded 7 0).2 rfl⟩

/-- C10. A run that ends with the stop signal set leaves all four stored
last-result fields unchanged: the update of lines 299-304 runs only on
the non-cancelled path. -/
theorem cancelled_run_preserves_results (mode : Mode) (iterations : Nat)
    (start_time end_time : ℚ) (v : ResultVars) :
    (benchmark_task mode iterations start_time end_time true v).2 = v := rfl

/-- Button-and-run state of `BenchmarkGUI` relevant to run exclusion: the
enabled state of the three buttons (lines 207-212, 280-282, 325-327) and
the number of live benchmark worker threads. -/
structure GuiState where
  single_btn_enabled : Bool
  multi_btn_enabled : Bool
  stop_btn_enabled : Bool
  active_runs : Nat
deriving DecidableEq

/-- Initial GUI state (lines 207-209): start buttons enabled, Stop
disabled, no run. -/
def init_gui : GuiState := ⟨true, true, false, 0⟩

/-- Embedding of `_run_benchmark` (lines 279-317): unconditionally
disables both start buttons, enables Stop, and starts a new worker
thread.  It contains no already-running check and reports no condition to
its caller; the mode argument only selects the compute path inside the
thread. -/
def run_benchmark (_mode : Mode) (s : GuiState) : GuiState :=
  ⟨false, false, true, s.active_runs + 1⟩

/-- Embedding of `_finish_benchmark` (lines 320-327): the worker thread
is joined (one fewer live run), Stop is disabled and both start buttons
re-enabled. -/
def finish_benchmark (s : GuiState) : GuiState :=
  ⟨true, true, false, s.active_runs - 1⟩

/-- External events driving the GUI: clicks on the two start buttons and
the `after`-scheduled finish callback.  A ttk button invokes its command
only while not disabled, so a click on a disabled button is a no-op. -/
inductive GuiEvent
  | clickSingle
  | clickMulti
  | finish
deriving DecidableEq

/-- One GUI event step. -/
def gui_step (s : GuiState) (e : GuiEvent) : GuiState :=
  match e with
  | GuiEvent.clickSingle =>
    if s.single_btn_enabled then run_benchmark Mode.Single s else s
  | GuiEvent.clickMulti =>
    if s.multi_btn_enabled then run_benchmark Mode.Multi s else s
  | GuiEvent.finish => finish_benchmark s

/-- Invariant tying the button states to run exclusion. -/
def gui_inv (s : GuiState) : Prop :=
  s.active_runs ≤ 1 ∧
    (s.single_btn_enabled = true → s.active_runs = 0) ∧
    (s.multi_btn_enabled = true → s.active_runs = 0)

/-- Counterexample to C5: with one run already active, a direct call of
`_run_benchmark` is not rejected: it changes the state and starts a
second concurrent run — no AlreadyRunning condition exists anywhere in
the code. -/
theorem already_running_counterexample :
    (run_benchmark Mode.Single (run_benchmark Mode.Single init_gui)).active_runs = 2 ∧
      run_benchmark Mode.Single (run_benchmark Mode.Single init_gui)
        ≠ run_benchmark Mode.Single init_gui := by
  constructor
  · rfl
  · decide

theorem gui_inv_preserved (s : GuiState) (e : GuiEvent) (h : gui_inv s) :
    gui_inv (gui_step s e) := by
  obtain ⟨h1, h2, h3⟩ := h
  cases e with
  | clickSingle =>
    unfold gui_step
    by_cases hb : s.single_btn_enabled = true
    · rw [if_pos hb]
      have h0 := h2 hb
      refine ⟨by simp [run_benchmark, h0], ?_, ?_⟩ <;>
        intro hfalse <;> simp [run_benchmark] at hfalse
    · rw [if_neg hb]
      exact ⟨h1, h2, h3⟩
  | clickMulti =>
    unfold gui_step
    by_cases hb : s.multi_btn_enabled = true
    · rw [if_pos hb]
      have h0 := h3 hb
      refine ⟨by simp [run_benchmark, h0], ?_, ?_⟩ <;>
        intro hfalse <;> simp [run_benchmark] at hfalse
    · rw [if_neg hb]
      exact ⟨h1, h2, h3⟩
  | finish =>
    refine ⟨?_, ?_, ?_⟩
    · simp only [gui_step, finish_benchmark]
      omega
    · intro _
      simp only [gui_step, finish_benchmark]
      omega
    · intro _
      simp only [gui_step, finish_benchmark]
      omega

theorem gui_inv_fold (es : List GuiEvent) :
    ∀ s, gui_inv s → gui_inv (es.foldl gui_step s) := by
  induction es with
  | nil => intro s hs; exact hs
  | cons e rest ih =>
    intro s hs
    exact ih (gui_step s e) (gui_inv_preserved s e hs)

/-- C5 as amended: run exclusion is enforced only through the GUI, with
no report.  Along every trace of button clicks and finish callbacks from
the initial state at most one run is active, and while a run is active
both start buttons are disabled, so a start click is silently ignored
(the state is unchanged and no AlreadyRunning condition is reported);
`_run_benchmark` itself contains no guard. -/
theorem single_active_run_via_buttons (es : List GuiEvent) :
    (es.foldl gui_step init_gui).active_runs ≤ 1 ∧
      ((es.foldl gui_step init_gui).active_runs = 1 →
        gui_step (es.foldl gui_step init_gui) GuiEvent.clickSingle
            = es.foldl gui_step init_gui ∧
          gui_step (es.foldl gui_step init_gui) GuiEvent.clickMulti
            = es.foldl gui_step init_gui) := by
  obtain ⟨h1, h2, h3⟩ := gui_inv_fold es init_gui (by simp [gui_inv, init_gui])
  refine ⟨h1, ?_⟩
  intro hact
  constructor
  · cases hsb : (es.foldl gui_step init_gui).single_btn_enabled with
    | true =>
      have := h2 hsb
      omega
    | false => simp [gui_step, hsb]
  · cases hmb : (es.foldl gui_step init_gui).multi_btn_enabled with
    | true =>
      have := h3 hmb
      omega
    | false => simp [gui_step, hmb]

/-- Witness for C5's amended theorem on the trace of a single start
click: one run is active and a further click on either start button
leaves the state unchanged. -/
theorem single_active_run_via_buttons_witness :
    ([GuiEvent.clickSingle].foldl gui_step init_gui).active_runs ≤ 1 ∧
      gui_step ([GuiEvent.clickSingle].foldl gui_step init_gui)
        GuiEvent.clickSingle = [GuiEvent.clickSingle].foldl gui_step init_gui :=
  ⟨(single_active_run_via_buttons [GuiEvent.clickSingle]).1,
    ((single_active_run_via_buttons [GuiEvent.clickSingle]).2 (by decide)).1⟩
